import Mathlib

/-!
Verification of the nncase model serialization and paging subsystem.

The definitions below are a shallow embedding of the serializer found in
the repository sources: the constants and record layouts of
`src/common/include/runtime/paging.h`, and the functions `write_pages`,
`call_emitter`, `register_emitter`, `disable_emitter` and `gencode` of the
codegen translation unit.  Machine integers are modelled as `Nat`
(the source uses `uint32_t`/`uint64_t`; none of the verified properties
depends on wrap-around, which for these quantities would require more
than `2^32` node headers).
-/

namespace NncaseCodegen

/-- kmodel flag which enables paging for this model (`paging.h`). -/
def KM_ENABLE_PAGING : Nat := 0x02

/-- Maximum number of possible pages (`paging.h`). -/
def KM_MAX_PAGES : Nat := 8

/-- The target size for each page, in number of bytes (`paging.h`). -/
def TARGET_PAGE_SIZE : Nat := 2300000

/-- Modelled from the spec: the flag constant `KM_NODE_PAGING` used by
`gencode` is defined in `runtime/model.h`, which is not among the sources;
the spec (section 6) states that the paging feature bit of the model header
flags is `KM_ENABLE_PAGING` = 0x02, and `paging.h` documents
`KM_ENABLE_PAGING` as the kmodel flag which enables paging. -/
def KM_NODE_PAGING : Nat := KM_ENABLE_PAGING

/-- Enumeration `memory_page_type` from `paging.h`: persistent = 0, swap = 1. -/
inductive memory_page_type : Type
  | persistent : memory_page_type
  | swap : memory_page_type
deriving DecidableEq, Repr

/-- Node header record `{opcode, body_size}`; the opcode enumeration is
modelled by its numeric value. -/
structure node_header : Type where
  opcode : Nat
  body_size : Nat
deriving DecidableEq, Repr

/-- Record `memory_page` from `paging.h`: a page of the kmodel body covering the
inclusive node-index range `begin .. end`. -/
structure memory_page : Type where
  index : Nat
  type : memory_page_type
  begin : Nat
  «end» : Nat
  offset_bytes : Nat
  size_bytes : Nat
deriving DecidableEq, Repr

/-- Record `memory_page_table` from `paging.h`. -/
structure memory_page_table : Type where
  num_pages : Nat
  max_pages : Nat
  body_buffer_size : Nat
deriving DecidableEq, Repr

/-- Fatal outcomes of `write_pages`: reading `headers[0]` of an empty
vector (undefined behaviour in the source, made explicit here), and the
`assert(pages.size() <= KM_MAX_PAGES)` failure. -/
inductive pages_error : Type
  | empty_headers : pages_error
  | max_pages_exceeded : pages_error
deriving DecidableEq, Repr

/-- The greedy packing loop of `write_pages` (`for(uint32_t node = 1; ...)`).
`current` is the page being grown, `node` the index of the head of the
remaining header list.  If the next body would push the current page past
`TARGET_PAGE_SIZE` the current page is committed and a fresh `swap` page is
opened covering only that node; otherwise the current page is extended. -/
def write_pages_loop (current : memory_page) :
    List node_header → Nat → List memory_page
  | [], _ => [current]
  | h :: rest, node =>
    if h.body_size + current.size_bytes > TARGET_PAGE_SIZE then
      current ::
        write_pages_loop
          { index := current.index + 1
            type := memory_page_type.swap
            begin := node
            «end» := node
            offset_bytes := current.offset_bytes + current.size_bytes
            size_bytes := h.body_size } rest (node + 1)
    else
      write_pages_loop
        { current with
            «end» := node
            size_bytes := current.size_bytes + h.body_size } rest (node + 1)

/-- The initial page of `write_pages`: page 0, persistent, seeded with
`headers[0].body_size`. -/
def seed_page (h0 : node_header) : memory_page :=
  { index := 0
    type := memory_page_type.persistent
    begin := 0
    «end» := 0
    offset_bytes := 0
    size_bytes := h0.body_size }

/-- The full page list the greedy planner builds for a header sequence
(empty input yields no pages; the source reads `headers[0]` there, see
`write_pages`). -/
def greedy_pages : List node_header → List memory_page
  | [] => []
  | h0 :: rest => write_pages_loop (seed_page h0) rest 1

/-- The accumulation loop computing `working_size` and `largest_swap` over
the committed pages: persistent pages add their size, swap pages raise the
running maximum. -/
def working_fold (pages : List memory_page) : Nat × Nat :=
  pages.foldl
    (fun acc page =>
      if page.type = memory_page_type.persistent then
        (acc.1 + page.size_bytes, acc.2)
      else
        (acc.1, max acc.2 page.size_bytes))
    (0, 0)

/-- Value of `working_size` after the final `working_size += largest_swap`. -/
def working_size (pages : List memory_page) : Nat :=
  (working_fold pages).1 + (working_fold pages).2

/-- Function `write_pages` of the codegen unit: plan the pages greedily, assert the
page-count cap, build the `memory_page_table`, and emit table and pages.
The out-of-bounds `headers[0]` read on an empty vector and the assertion
failure are modelled as explicit error outcomes. -/
def write_pages (headers : List node_header) :
    Except pages_error (memory_page_table × List memory_page) :=
  match headers with
  | [] => Except.error pages_error.empty_headers
  | h0 :: rest =>
    let pages := write_pages_loop (seed_page h0) rest 1
    if pages.length ≤ KM_MAX_PAGES then
      Except.ok
        ({ num_pages := pages.length
           max_pages := KM_MAX_PAGES
           body_buffer_size := working_size pages }, pages)
    else
      Except.error pages_error.max_pages_exceeded

/-- Sum of `body_size` over the header indices `a ≤ i < b`. -/
def sumBody (l : List node_header) (a b : Nat) : Nat :=
  (((l.drop a).take (b - a)).map node_header.body_size).sum

/-- Sum of the sizes of the persistent pages, as the spec words it. -/
def spec_persistent_sum (pages : List memory_page) : Nat :=
  ((pages.filter
      (fun p => p.type == memory_page_type.persistent)).map
    memory_page.size_bytes).sum

/-- Maximum of the sizes of the swap pages, 0 when there are none, as the
spec words it. -/
def spec_swap_max (pages : List memory_page) : Nat :=
  ((pages.filter
      (fun p => p.type == memory_page_type.swap)).map
    memory_page.size_bytes).foldl max 0

/-- Adjacent pages are linked: contiguous index ranges, indices increasing
by one, and offsets advancing by the previous page's size. -/
def pages_linked (p q : memory_page) : Prop :=
  p.«end» + 1 = q.begin ∧ q.index = p.index + 1 ∧
    q.offset_bytes = p.offset_bytes + p.size_bytes

/-- Every adjacent pair of the page list is linked. -/
def pages_chained : List memory_page → Prop
  | [] => True
  | [_] => True
  | p :: q :: rest => pages_linked p q ∧ pages_chained (q :: rest)

/-- The packing loop returns a nonempty list whose head keeps the begin
index, page index, offset and type of the page it was growing. -/
theorem loop_head_spec (rest : List node_header) (current : memory_page) (i : Nat) :
    ∃ p t, write_pages_loop current rest i = p :: t ∧
      p.begin = current.begin ∧ p.index = current.index ∧
      p.offset_bytes = current.offset_bytes ∧ p.type = current.type := by
  induction rest generalizing current i with
  | nil => exact ⟨current, [], rfl, rfl, rfl, rfl, rfl⟩
  | cons h rest ih =>
    by_cases hc : h.body_size + current.size_bytes > TARGET_PAGE_SIZE
    · refine ⟨current,
        write_pages_loop
          { index := current.index + 1
            type := memory_page_type.swap
            begin := i
            «end» := i
            offset_bytes := current.offset_bytes + current.size_bytes
            size_bytes := h.body_size } rest (i + 1), ?_, rfl, rfl, rfl, rfl⟩
      simp only [write_pages_loop, if_pos hc]
    · obtain ⟨p, t, heq, h1, h2, h3, h4⟩ :=
        ih { current with
               «end» := i
               size_bytes := current.size_bytes + h.body_size } (i + 1)
      refine ⟨p, t, ?_, h1, h2, h3, h4⟩
      simp only [write_pages_loop, if_neg hc]
      exact heq

/-- If the page being grown is already a swap page, every page the loop
returns is a swap page. -/
theorem loop_all_swap (rest : List node_header) (current : memory_page) (i : Nat)
    (hsw : current.type = memory_page_type.swap) :
    ∀ p ∈ write_pages_loop current rest i, p.type = memory_page_type.swap := by
  induction rest generalizing current i with
  | nil =>
    intro p hp
    simp only [write_pages_loop, List.mem_singleton] at hp
    subst hp; exact hsw
  | cons h rest ih =>
    intro p hp
    by_cases hc : h.body_size + current.size_bytes > TARGET_PAGE_SIZE
    · simp only [write_pages_loop, if_pos hc, List.mem_cons] at hp
      rcases hp with rfl | hp
      · exact hsw
      · exact ih
          { index := current.index + 1
            type := memory_page_type.swap
            begin := i
            «end» := i
            offset_bytes := current.offset_bytes + current.size_bytes
            size_bytes := h.body_size } (i + 1) rfl p hp
    · simp only [write_pages_loop, if_neg hc] at hp
      exact ih
        { current with
            «end» := i
            size_bytes := current.size_bytes + h.body_size } (i + 1) hsw p hp

/-- Page indices produced by the loop increase by one starting from the
index of the page being grown. -/
theorem loop_get_index (rest : List node_header) (current : memory_page) (i : Nat) :
    ∀ j p, (write_pages_loop current rest i).get? j = some p →
      p.index = current.index + j := by
  induction rest generalizing current i with
  | nil =>
    intro j p hp
    cases j with
    | zero =>
      simp only [write_pages_loop, List.get?_cons_zero, Option.some.injEq] at hp
      subst hp
      omega
    | succ k =>
      simp only [write_pages_loop, List.get?_cons_succ, List.get?_nil] at hp
      exact Option.noConfusion hp
  | cons h rest ih =>
    intro j p hp
    by_cases hc : h.body_size + current.size_bytes > TARGET_PAGE_SIZE
    · simp only [write_pages_loop, if_pos hc] at hp
      cases j with
      | zero =>
        simp only [List.get?_cons_zero, Option.some.injEq] at hp
        subst hp
        omega
      | succ k =>
        simp only [List.get?_cons_succ] at hp
        have := ih
          { index := current.index + 1
            type := memory_page_type.swap
            begin := i
            «end» := i
            offset_bytes := current.offset_bytes + current.size_bytes
            size_bytes := h.body_size } (i + 1) k p hp
        simp only at this
        omega
    · simp only [write_pages_loop, if_neg hc] at hp
      exact ih
        { current with
            «end» := i
            size_bytes := current.size_bytes + h.body_size } (i + 1) j p hp

/-- Every page after the head of the loop's output is a swap page. -/
theorem loop_tail_swap (rest : List node_header) (current : memory_page) (i : Nat) :
    ∀ j p, (write_pages_loop current rest i).get? j = some p → 0 < j →
      p.type = memory_page_type.swap := by
  induction rest generalizing current i with
  | nil =>
    intro j p hp hpos
    cases j with
    | zero => omega
    | succ k =>
      simp only [write_pages_loop, List.get?_cons_succ, List.get?_nil] at hp
      exact Option.noConfusion hp
  | cons h rest ih =>
    intro j p hp hpos
    by_cases hc : h.body_size + current.size_bytes > TARGET_PAGE_SIZE
    · simp only [write_pages_loop, if_pos hc] at hp
      cases j with
      | zero => omega
      | succ k =>
        simp only [List.get?_cons_succ] at hp
        exact loop_all_swap rest _ (i + 1) rfl p (List.get?_mem hp)
    · simp only [write_pages_loop, if_neg hc] at hp
      exact ih
        { current with
            «end» := i
            size_bytes := current.size_bytes + h.body_size } (i + 1) j p hp hpos

/-- The last page returned by the loop ends at the index of the last node
handed to it. -/
theorem loop_last_end (rest : List node_header) (current : memory_page) (i : Nat)
    (hi : current.«end» + 1 = i) :
    ∃ q, (write_pages_loop current rest i).getLast? = some q ∧
      q.«end» + 1 = i + rest.length := by
  induction rest generalizing current i with
  | nil => exact ⟨current, rfl, by simpa using hi⟩
  | cons h rest ih =>
    by_cases hc : h.body_size + current.size_bytes > TARGET_PAGE_SIZE
    · obtain ⟨q, hq, he⟩ := ih
        { index := current.index + 1
          type := memory_page_type.swap
          begin := i
          «end» := i
          offset_bytes := current.offset_bytes + current.size_bytes
          size_bytes := h.body_size } (i + 1) rfl
      refine ⟨q, ?_, by simpa using by omega⟩
      obtain ⟨p, t, heq, -, -, -, -⟩ := loop_head_spec rest
        { index := current.index + 1
          type := memory_page_type.swap
          begin := i
          «end» := i
          offset_bytes := current.offset_bytes + current.size_bytes
          size_bytes := h.body_size } (i + 1)
      simp only [write_pages_loop, if_pos hc, heq, List.getLast?_cons_cons]
      rw [← heq]
      exact hq
    · obtain ⟨q, hq, he⟩ := ih
        { current with
            «end» := i
            size_bytes := current.size_bytes + h.body_size } (i + 1) rfl
      refine ⟨q, ?_, by simpa using by omega⟩
      simp only [write_pages_loop, if_neg hc]
      exact hq

/-- The loop's output pages are chained: contiguous inclusive ranges,
indices increasing by one, offsets advancing by the committed sizes. -/
theorem loop_chained (rest : List node_header) (current : memory_page) (i : Nat)
    (hi : current.«end» + 1 = i) :
    pages_chained (write_pages_loop current rest i) := by
  induction rest generalizing current i with
  | nil => trivial
  | cons h rest ih =>
    by_cases hc : h.body_size + current.size_bytes > TARGET_PAGE_SIZE
    · obtain ⟨p, t, heq, h1, h2, h3, -⟩ := loop_head_spec rest
        { index := current.index + 1
          type := memory_page_type.swap
          begin := i
          «end» := i
          offset_bytes := current.offset_bytes + current.size_bytes
          size_bytes := h.body_size } (i + 1)
      have hch := ih
        { index := current.index + 1
          type := memory_page_type.swap
          begin := i
          «end» := i
          offset_bytes := current.offset_bytes + current.size_bytes
          size_bytes := h.body_size } (i + 1) rfl
      simp only [write_pages_loop, if_pos hc, heq]
      rw [heq] at hch
      refine ⟨⟨?_, ?_, ?_⟩, hch⟩
      · rw [h1]; exact hi
      · rw [h2]
      · rw [h3]
    · simp only [write_pages_loop, if_neg hc]
      exact ih _ (i + 1) rfl

/-- A one-element slice sums to the body size of the header at that index. -/
theorem sumBody_single (full : List node_header) (i : Nat) (h : node_header)
    (rest : List node_header) (hdrop : full.drop i = h :: rest) :
    sumBody full i (i + 1) = h.body_size := by
  unfold sumBody
  have h1 : i + 1 - i = 1 := by omega
  rw [h1, hdrop]
  simp

/-- Extending a slice by one index adds that header's body size. -/
theorem sumBody_step (full : List node_header) (a i : Nat) (h : node_header)
    (rest : List node_header) (ha : a ≤ i) (hdrop : full.drop i = h :: rest) :
    sumBody full a (i + 1) = sumBody full a i + h.body_size := by
  unfold sumBody
  have h1 : i + 1 - a = (i - a) + 1 := by omega
  rw [h1, List.take_add]
  have h2 : (full.drop a).drop (i - a) = full.drop i := by
    rw [List.drop_drop]
    congr 1
    omega
  rw [h2, hdrop]
  simp

/-- Every page the loop commits covers a well-formed inclusive range whose
body sizes sum to the page's `size_bytes`. -/
theorem loop_pages_ok (full : List node_header) (rest : List node_header)
    (current : memory_page) (i : Nat)
    (hdrop : full.drop i = rest) (hi : current.«end» + 1 = i)
    (hbe : current.begin ≤ current.«end»)
    (hsz : current.size_bytes = sumBody full current.begin i) :
    ∀ p ∈ write_pages_loop current rest i,
      p.begin ≤ p.«end» ∧ p.size_bytes = sumBody full p.begin (p.«end» + 1) := by
  induction rest generalizing current i with
  | nil =>
    intro p hp
    simp only [write_pages_loop, List.mem_singleton] at hp
    subst hp
    refine ⟨hbe, ?_⟩
    rw [hi]
    exact hsz
  | cons h rest ih =>
    have hdrop' : full.drop (i + 1) = rest := by
      have hdd := List.drop_drop 1 i full
      rw [hdrop] at hdd
      simpa using hdd.symm
    intro p hp
    by_cases hc : h.body_size + current.size_bytes > TARGET_PAGE_SIZE
    · simp only [write_pages_loop, if_pos hc, List.mem_cons] at hp
      rcases hp with rfl | hp
      · refine ⟨hbe, ?_⟩
        rw [hi]
        exact hsz
      · refine ih
          { index := current.index + 1
            type := memory_page_type.swap
            begin := i
            «end» := i
            offset_bytes := current.offset_bytes + current.size_bytes
            size_bytes := h.body_size } (i + 1) hdrop' rfl (le_refl i) ?_ p hp
        exact (sumBody_single full i h rest hdrop).symm
    · simp only [write_pages_loop, if_neg hc] at hp
      refine ih
        { current with
            «end» := i
            size_bytes := current.size_bytes + h.body_size }
        (i + 1) hdrop' rfl ?_ ?_ p hp
      · show current.begin ≤ i
        omega
      · show current.size_bytes + h.body_size = sumBody full current.begin (i + 1)
        rw [sumBody_step full current.begin i h rest (by omega) hdrop, hsz]

/-- A page the loop commits that covers more than one node never exceeds
the target page size: the loop only ever extends a page when the new total
stays within `TARGET_PAGE_SIZE`. -/
theorem loop_size_cap (rest : List node_header) (current : memory_page) (i : Nat)
    (hi : current.«end» + 1 = i) (hbe : current.begin ≤ current.«end»)
    (hcap : current.begin ≠ current.«end» →
      current.size_bytes ≤ TARGET_PAGE_SIZE) :
    ∀ p ∈ write_pages_loop current rest i,
      p.begin ≠ p.«end» → p.size_bytes ≤ TARGET_PAGE_SIZE := by
  induction rest generalizing current i with
  | nil =>
    intro p hp
    simp only [write_pages_loop, List.mem_singleton] at hp
    subst hp
    exact hcap
  | cons h rest ih =>
    intro p hp
    by_cases hc : h.body_size + current.size_bytes > TARGET_PAGE_SIZE
    · simp only [write_pages_loop, if_pos hc, List.mem_cons] at hp
      rcases hp with rfl | hp
      · exact hcap
      · refine ih
          { index := current.index + 1
            type := memory_page_type.swap
            begin := i
            «end» := i
            offset_bytes := current.offset_bytes + current.size_bytes
            size_bytes := h.body_size } (i + 1) rfl (le_refl i) ?_ p hp
        intro hne
        exact absurd rfl hne
    · simp only [write_pages_loop, if_neg hc] at hp
      refine ih
        { current with
            «end» := i
            size_bytes := current.size_bytes + h.body_size }
        (i + 1) rfl ?_ ?_ p hp
      · show current.begin ≤ i
        omega
      · intro _
        show current.size_bytes + h.body_size ≤ TARGET_PAGE_SIZE
        omega

/-- The fold computing `working_size` and `largest_swap` agrees with the
spec-level sum over persistent pages and maximum over swap pages. -/
theorem working_fold_general (pages : List memory_page) :
    ∀ a b : Nat,
      pages.foldl
        (fun acc page =>
          if page.type = memory_page_type.persistent then
            (acc.1 + page.size_bytes, acc.2)
          else
            (acc.1, max acc.2 page.size_bytes))
        (a, b) =
      (a + spec_persistent_sum pages,
        ((pages.filter
            (fun p => p.type == memory_page_type.swap)).map
          memory_page.size_bytes).foldl max b) := by
  induction pages with
  | nil =>
    intro a b
    simp [spec_persistent_sum]
  | cons p pages ih =>
    intro a b
    by_cases hp : p.type = memory_page_type.persistent
    · have hps : (p.type == memory_page_type.persistent) = true := by
        simp [hp]
      have hss : (p.type == memory_page_type.swap) = true → False := by
        simp [hp]
      simp only [List.foldl_cons, if_pos hp, ih, spec_persistent_sum,
        List.filter_cons]
      simp [hps, hp]
      omega
    · have hsw : p.type = memory_page_type.swap := by
        cases htype : p.type
        · exact absurd htype hp
        · rfl
      simp only [List.foldl_cons, if_neg hp, ih, spec_persistent_sum,
        List.filter_cons]
      simp [hsw]

/-- Computed `working_size` is the sum of persistent page sizes plus the maximum
swap page size (0 when no swap page exists). -/
theorem working_size_spec (pages : List memory_page) :
    working_size pages = spec_persistent_sum pages + spec_swap_max pages := by
  unfold working_size working_fold spec_swap_max
  rw [working_fold_general pages 0 0]
  omega

/-- Successful `write_pages` runs return the greedily planned pages and a
table built from their count and `working_size`. -/
theorem write_pages_ok_inv (headers : List node_header)
    (table : memory_page_table) (pages : List memory_page)
    (h : write_pages headers = Except.ok (table, pages)) :
    headers ≠ [] ∧ pages = greedy_pages headers ∧
      pages.length ≤ KM_MAX_PAGES ∧
      table = { num_pages := pages.length
                max_pages := KM_MAX_PAGES
                body_buffer_size := working_size pages } := by
  cases headers with
  | nil => simp [write_pages] at h
  | cons h0 rest =>
    simp only [write_pages] at h
    split at h
    · simp only [Except.ok.injEq, Prod.mk.injEq] at h
      obtain ⟨htab, hpag⟩ := h
      subst hpag
      subst htab
      refine ⟨by simp, rfl, by assumption, rfl⟩
    · exact absurd h (by simp)

/-- The slice sum over a single index is the body size of the header at
that index (0 when out of range). -/
theorem sumBody_single_get (l : List node_header) (b : Nat) :
    sumBody l b (b + 1) = ((l.get? b).map node_header.body_size).getD 0 := by
  unfold sumBody
  have h1 : b + 1 - b = 1 := by omega
  rw [h1]
  have hhead : (l.drop b).head? = l.get? b := by
    rw [List.head?_drop]
    simp
  cases hdrop : l.drop b with
  | nil =>
    rw [hdrop] at hhead
    simp only [List.head?_nil] at hhead
    rw [← hhead]
    simp
  | cons h t =>
    rw [hdrop] at hhead
    simp only [List.head?_cons] at hhead
    rw [← hhead]
    simp

/-- C2: for every non-empty node-header sequence the planner's pages
exactly partition the index range: page 0 begins at index 0 with offset 0
and page index 0, the last page ends at index N-1, every page has
begin ≤ end, adjacent pages are contiguous in range, index and offset, page
indices count up from 0, and each page's size is the sum of the body sizes
of the headers it covers. -/
theorem c2_pages_partition (headers : List node_header) (hne : headers ≠ []) :
    (∃ p0 t, greedy_pages headers = p0 :: t ∧ p0.begin = 0 ∧ p0.index = 0 ∧
       p0.offset_bytes = 0) ∧
    (∃ q, (greedy_pages headers).getLast? = some q ∧
       q.«end» + 1 = headers.length) ∧
    (∀ p ∈ greedy_pages headers,
       p.begin ≤ p.«end» ∧
         p.size_bytes = sumBody headers p.begin (p.«end» + 1)) ∧
    (∀ j p, (greedy_pages headers).get? j = some p → p.index = j) ∧
    pages_chained (greedy_pages headers) := by
  cases headers with
  | nil => exact absurd rfl hne
  | cons h0 rest =>
    simp only [greedy_pages]
    refine ⟨?_, ?_, ?_, ?_, ?_⟩
    · obtain ⟨p, t, heq, h1, h2, h3, -⟩ := loop_head_spec rest (seed_page h0) 1
      exact ⟨p, t, heq, h1, h2, h3⟩
    · obtain ⟨q, hq, he⟩ := loop_last_end rest (seed_page h0) 1 rfl
      refine ⟨q, hq, ?_⟩
      simp only [List.length_cons]
      omega
    · intro p hp
      refine loop_pages_ok (h0 :: rest) rest (seed_page h0) 1 rfl rfl
        (le_refl 0) ?_ p hp
      show h0.body_size = sumBody (h0 :: rest) 0 1
      simp [sumBody]
    · intro j p hp
      have := loop_get_index rest (seed_page h0) 1 j p hp
      simpa [seed_page] using this
    · exact loop_chained rest (seed_page h0) 1 rfl

/-- C3: for every non-empty node-header sequence the first planned page is
persistent and every later page is swap. -/
theorem c3_page_types (headers : List node_header) (hne : headers ≠ []) :
    (∃ p0 t, greedy_pages headers = p0 :: t ∧
       p0.type = memory_page_type.persistent) ∧
    (∀ j p, (greedy_pages headers).get? j = some p → 0 < j →
       p.type = memory_page_type.swap) := by
  cases headers with
  | nil => exact absurd rfl hne
  | cons h0 rest =>
    simp only [greedy_pages]
    constructor
    · obtain ⟨p, t, heq, -, -, -, h4⟩ := loop_head_spec rest (seed_page h0) 1
      exact ⟨p, t, heq, h4⟩
    · intro j p hp hpos
      exact loop_tail_swap rest (seed_page h0) 1 j p hp hpos

/-- C4: a planned page exceeding `TARGET_PAGE_SIZE` covers exactly one
node whose own body size exceeds the budget; equivalently every page
covering two or more nodes stays within the budget. -/
theorem c4_oversized_pages (headers : List node_header) (hne : headers ≠ []) :
    ∀ p ∈ greedy_pages headers,
      (p.begin ≠ p.«end» → p.size_bytes ≤ TARGET_PAGE_SIZE) ∧
      (TARGET_PAGE_SIZE < p.size_bytes →
        p.begin = p.«end» ∧
          ∃ h, headers.get? p.begin = some h ∧
            TARGET_PAGE_SIZE < h.body_size) := by
  cases headers with
  | nil => exact absurd rfl hne
  | cons h0 rest =>
    intro p hp
    simp only [greedy_pages] at hp
    have hcap := loop_size_cap rest (seed_page h0) 1 rfl (le_refl 0)
      (fun hne0 => absurd rfl hne0) p hp
    refine ⟨hcap, ?_⟩
    intro hbig
    have hbe : p.begin = p.«end» := by
      by_contra hne0
      exact absurd (hcap hne0) (by omega)
    refine ⟨hbe, ?_⟩
    have hok := loop_pages_ok (h0 :: rest) rest (seed_page h0) 1 rfl rfl
      (le_refl 0) (by simp [sumBody, seed_page]) p hp
    have hsz := hok.2
    rw [← hbe] at hsz
    rw [sumBody_single_get] at hsz
    cases hget : (h0 :: rest).get? p.begin with
    | none =>
      rw [hget] at hsz
      simp at hsz
      omega
    | some hd =>
      rw [hget] at hsz
      simp at hsz
      exact ⟨hd, rfl, by omega⟩

/-- Two headers used to exercise the planner on a concrete input. -/
def example_two_headers : List node_header :=
  [{ opcode := 3, body_size := 5 }, { opcode := 4, body_size := 7 }]

/-- Ten headers of body size 1,000,000 each (the worked example of the
spec). -/
def example_ten_headers : List node_header :=
  List.replicate 10 { opcode := 0, body_size := 1000000 }

/-- Nine headers of body size 3,000,000 each: every node overflows the
target, forcing nine pages and tripping the page-count cap. -/
def example_nine_big : List node_header :=
  List.replicate 9 { opcode := 0, body_size := 3000000 }

/-- C5: the table's `body_buffer_size` is the sum of the persistent page
sizes plus the largest swap page size (0 when there is no swap page); on
ten nodes of body size 1,000,000 the planner yields 5 pages and a buffer
of 4,000,000 bytes. -/
theorem c5_body_buffer_size (headers : List node_header)
    (table : memory_page_table) (pages : List memory_page)
    (h : write_pages headers = Except.ok (table, pages)) :
    table.body_buffer_size =
        spec_persistent_sum pages + spec_swap_max pages ∧
      (write_pages example_ten_headers).toOption.map
          (fun r => (r.2.length, r.1.body_buffer_size)) =
        some (5, 4000000) := by
  obtain ⟨-, -, -, htab⟩ := write_pages_ok_inv headers table pages h
  constructor
  · rw [htab]
    exact working_size_spec pages
  · decide

/-- Witness for C5 at a one-header input. -/
theorem c5_body_buffer_size_witness :
    ({ num_pages := 1, max_pages := 8, body_buffer_size := 5 } :
          memory_page_table).body_buffer_size =
        spec_persistent_sum
            [⟨0, memory_page_type.persistent, 0, 0, 0, 5⟩] +
          spec_swap_max [⟨0, memory_page_type.persistent, 0, 0, 0, 5⟩] ∧
      (write_pages example_ten_headers).toOption.map
          (fun r => (r.2.length, r.1.body_buffer_size)) =
        some (5, 4000000) :=
  c5_body_buffer_size [{ opcode := 0, body_size := 5 }]
    { num_pages := 1, max_pages := 8, body_buffer_size := 5 }
    [⟨0, memory_page_type.persistent, 0, 0, 0, 5⟩] (by rfl)

/-- C6: a header sequence whose greedy plan needs more than `KM_MAX_PAGES`
pages is rejected fatally before any table is built, and every accepted
table satisfies `num_pages ≤ max_pages` with `max_pages = KM_MAX_PAGES`. -/
theorem c6_max_pages_cap :
    (∀ headers : List node_header,
       KM_MAX_PAGES < (greedy_pages headers).length →
       write_pages headers = Except.error pages_error.max_pages_exceeded) ∧
    (∀ headers table pages,
       write_pages headers = Except.ok (table, pages) →
       table.max_pages = KM_MAX_PAGES ∧ table.num_pages ≤ table.max_pages ∧
         table.num_pages = pages.length) := by
  constructor
  · intro headers hover
    cases headers with
    | nil => simp [greedy_pages] at hover
    | cons h0 rest =>
      simp only [greedy_pages] at hover
      simp only [write_pages]
      rw [if_neg (by omega)]
  · intro headers table pages h
    obtain ⟨-, -, hlen, htab⟩ := write_pages_ok_inv headers table pages h
    subst htab
    exact ⟨rfl, hlen, rfl⟩

/-- Witness for C6: nine oversized nodes are rejected, one node is
accepted with a cap-respecting table. -/
theorem c6_max_pages_cap_witness :
    write_pages example_nine_big =
        Except.error pages_error.max_pages_exceeded ∧
      (({ num_pages := 1, max_pages := 8, body_buffer_size := 5 } :
            memory_page_table).max_pages = KM_MAX_PAGES ∧
        ({ num_pages := 1, max_pages := 8, body_buffer_size := 5 } :
              memory_page_table).num_pages ≤
            ({ num_pages := 1, max_pages := 8, body_buffer_size := 5 } :
              memory_page_table).max_pages ∧
        ({ num_pages := 1, max_pages := 8, body_buffer_size := 5 } :
              memory_page_table).num_pages =
          ([⟨0, memory_page_type.persistent, 0, 0, 0, 5⟩] :
            List memory_page).length) :=
  ⟨c6_max_pages_cap.1 example_nine_big (by decide),
    c6_max_pages_cap.2 [{ opcode := 0, body_size := 5 }]
      { num_pages := 1, max_pages := 8, body_buffer_size := 5 }
      [⟨0, memory_page_type.persistent, 0, 0, 0, 5⟩] (by rfl)⟩

/-- Witness for C2 at a two-header input. -/
theorem c2_pages_partition_witness :
    (∃ p0 t, greedy_pages example_two_headers = p0 :: t ∧ p0.begin = 0 ∧
       p0.index = 0 ∧ p0.offset_bytes = 0) ∧
    (∃ q, (greedy_pages example_two_headers).getLast? = some q ∧
       q.«end» + 1 = example_two_headers.length) ∧
    (∀ p ∈ greedy_pages example_two_headers,
       p.begin ≤ p.«end» ∧
         p.size_bytes = sumBody example_two_headers p.begin (p.«end» + 1)) ∧
    (∀ j p, (greedy_pages example_two_headers).get? j = some p →
       p.index = j) ∧
    pages_chained (greedy_pages example_two_headers) :=
  c2_pages_partition example_two_headers (by decide)

/-- Witness for C3 at a two-header input. -/
theorem c3_page_types_witness :
    (∃ p0 t, greedy_pages example_two_headers = p0 :: t ∧
       p0.type = memory_page_type.persistent) ∧
    (∀ j p, (greedy_pages example_two_headers).get? j = some p → 0 < j →
       p.type = memory_page_type.swap) :=
  c3_page_types example_two_headers (by decide)

/-- Witness for C4 at a two-header input and the single page it plans. -/
theorem c4_oversized_pages_witness :
    ((⟨0, memory_page_type.persistent, 0, 1, 0, 12⟩ : memory_page).begin ≠
        (⟨0, memory_page_type.persistent, 0, 1, 0, 12⟩ : memory_page).«end» →
      (⟨0, memory_page_type.persistent, 0, 1, 0, 12⟩ :
          memory_page).size_bytes ≤ TARGET_PAGE_SIZE) ∧
    (TARGET_PAGE_SIZE <
        (⟨0, memory_page_type.persistent, 0, 1, 0, 12⟩ :
          memory_page).size_bytes →
      (⟨0, memory_page_type.persistent, 0, 1, 0, 12⟩ : memory_page).begin =
          (⟨0, memory_page_type.persistent, 0, 1, 0, 12⟩ :
            memory_page).«end» ∧
        ∃ h, example_two_headers.get?
              (⟨0, memory_page_type.persistent, 0, 1, 0, 12⟩ :
                memory_page).begin = some h ∧
          TARGET_PAGE_SIZE < h.body_size) :=
  c4_oversized_pages example_two_headers (by decide)
    ⟨0, memory_page_type.persistent, 0, 1, 0, 12⟩ (by decide)

/-- A graph node as far as serialization is concerned: its runtime opcode
(numeric) and an identity distinguishing nodes of equal opcode. -/
structure llir_node : Type where
  runtime_opcode : Nat
  node_id : Nat
deriving DecidableEq, Repr

/-- An emitted node body: its opcode tag and the number of bytes its
`serialize` writes.  Body contents are opaque to the serializer; only the
byte count matters for positions and headers. -/
structure node_body : Type where
  opcode : Nat
  len : Nat
deriving DecidableEq, Repr

/-- The global emitter state: `g_emitters` maps an opcode to its emitter,
`g_disabled_emitters` is the disabled set. -/
structure emitter_registry : Type where
  g_emitters : Nat → Option (llir_node → node_body)
  g_disabled_emitters : Nat → Bool

/-- Fatal codegen outcomes: an unregistered and not disabled opcode
(`throw std::runtime_error`), or a failure inside `write_pages`. -/
inductive codegen_error : Type
  | unregistered_emitter : Nat → codegen_error
  | pages : pages_error → codegen_error
deriving DecidableEq, Repr

/-- Dispatch `call_emitter`: look the opcode up in `g_emitters`; if absent and not
disabled, fail fatally; if absent but disabled, produce no body; if
present, invoke the emitter. -/
def call_emitter (reg : emitter_registry) (node : llir_node) :
    Except codegen_error (Option node_body) :=
  match reg.g_emitters node.runtime_opcode with
  | some emitter => Except.ok (some (emitter node))
  | none =>
    if reg.g_disabled_emitters node.runtime_opcode then
      Except.ok none
    else
      Except.error (codegen_error.unregistered_emitter node.runtime_opcode)

/-- Registration `register_emitter`: `g_emitters.emplace(opcode, emitter)` — inserts
only when no emitter is registered for the opcode yet. -/
def register_emitter (reg : emitter_registry) (opcode : Nat)
    (emitter : llir_node → node_body) : emitter_registry :=
  { reg with
      g_emitters := fun o =>
        if o = opcode then
          match reg.g_emitters o with
          | some old => some old
          | none => some emitter
        else reg.g_emitters o }

/-- Disabling `disable_emitter`: `g_disabled_emitters.emplace(opcode)`. -/
def disable_emitter (reg : emitter_registry) (opcode : Nat) :
    emitter_registry :=
  { reg with
      g_disabled_emitters := fun o =>
        o == opcode || reg.g_disabled_emitters o }

/-- The `runtime_nodes` vector built by `gencode`'s classification pass:
nodes whose opcode is disabled are dropped. -/
def runtime_nodes (reg : emitter_registry)
    (compute_sequence : List llir_node) : List llir_node :=
  compute_sequence.filter
    (fun node => !reg.g_disabled_emitters node.runtime_opcode)

/-- Modelled from the spec: `binary_writer::align_position(n)` — the
writer implementation is not among the sources; the spec (section 4.1)
defines `align(n)` as padding with zero bytes until the position is a
multiple of `n`.  This returns the least multiple of `a` that is ≥ `pos`. -/
def align_position (pos a : Nat) : Nat := ((pos + a - 1) / a) * a

/-- One body written by `gencode`'s body loop: the recorded start
position, the emitted body, and the node header appended for it. -/
structure emitted_node : Type where
  body_start : Nat
  body : node_body
  header : node_header
deriving DecidableEq, Repr

/-- The body-writing loop of `gencode`: for each runtime node dispatch the
emitter; when a body is produced, record its start, advance the writer by
its serialized length, pad to an 8-byte boundary, and append a node header
whose `body_size` is the post-alignment span. -/
def emit_bodies (reg : emitter_registry) :
    List llir_node → Nat → Except codegen_error (Nat × List emitted_node)
  | [], pos => Except.ok (pos, [])
  | node :: rest, pos =>
    match call_emitter reg node with
    | Except.error e => Except.error e
    | Except.ok none => emit_bodies reg rest pos
    | Except.ok (some body) =>
      let body_start := pos
      let after_align := align_position (body_start + body.len) 8
      let body_size := after_align - body_start
      match emit_bodies reg rest after_align with
      | Except.error e => Except.error e
      | Except.ok (end_pos, entries) =>
        Except.ok (end_pos,
          { body_start := body_start
            body := body
            header := { opcode := body.opcode, body_size := body_size } }
            :: entries)

/-- Constant `enable_paging` is a hard-coded local of `gencode`. -/
def enable_paging : Bool := true

/-- Modelled from the spec: `sizeof(node_header)` — the opcode enumeration
lives outside the sources; the header is the fixed-size pair
`{opcode, body_size}` of 32-bit values. -/
def sizeof_node_header : Nat := 8

/-- Size `sizeof(memory_page)`: four `uint32_t` and two `uint64_t` fields. -/
def sizeof_memory_page : Nat := 32

/-- The outcome of a successful `gencode` run, restricted to the
quantities the verified claims are about. -/
structure gencode_output : Type where
  flags : Nat
  page_bytes : Nat
  node_headers : List node_header
  emitted : List emitted_node
  page_table : Option (memory_page_table × List memory_page)
  end_pos : Nat
deriving Repr

/-- Function `gencode`, from the classification pass onward.  The writes preceding
the node-header table (model header, descriptor tables, constant pool)
only move the writer; their extent is abstracted into `node_headers_pos`,
the writer position at which the node-header table is reserved.  The flags
are built as in the source (`flags = 0`, then `|= KM_NODE_PAGING` when
`enable_paging`); the space skipped for the page table is guarded by
`flags & KM_MAX_PAGES` exactly as in the source, and the page table is
written when `flags & KM_NODE_PAGING` is set. -/
def gencode (reg : emitter_registry) (compute_sequence : List llir_node)
    (node_headers_pos : Nat) : Except codegen_error gencode_output :=
  let rnodes := runtime_nodes reg compute_sequence
  let flags : Nat := if enable_paging then 0 ||| KM_NODE_PAGING else 0
  let node_header_bytes := sizeof_node_header * rnodes.length
  let page_bytes :=
    sizeof_memory_page * KM_MAX_PAGES *
      (if flags &&& KM_MAX_PAGES ≠ 0 then 1 else 0)
  match emit_bodies reg rnodes (node_headers_pos + node_header_bytes + page_bytes) with
  | Except.error e => Except.error e
  | Except.ok (end_pos, entries) =>
    let node_headers := entries.map emitted_node.header
    if flags &&& KM_NODE_PAGING ≠ 0 then
      match write_pages node_headers with
      | Except.error e => Except.error (codegen_error.pages e)
      | Except.ok tp =>
        Except.ok
          { flags := flags
            page_bytes := page_bytes
            node_headers := node_headers
            emitted := entries
            page_table := some tp
            end_pos := end_pos }
    else
      Except.ok
        { flags := flags
          page_bytes := page_bytes
          node_headers := node_headers
          emitted := entries
          page_table := none
          end_pos := end_pos }

/-- Disabling one opcode leaves dispatch unchanged on every other
opcode. -/
theorem call_emitter_disable_other (reg : emitter_registry) (opcode : Nat)
    (node : llir_node) (hne : node.runtime_opcode ≠ opcode) :
    call_emitter (disable_emitter reg opcode) node = call_emitter reg node := by
  have hbe : (node.runtime_opcode == opcode) = false := by
    simp [hne]
  cases hreg : reg.g_emitters node.runtime_opcode with
  | some f => simp [call_emitter, disable_emitter, hreg]
  | none => simp [call_emitter, disable_emitter, hreg, hbe]

/-- Disabling an opcode filters exactly the nodes of that opcode out of
the runtime node sequence. -/
theorem runtime_nodes_disable (reg : emitter_registry) (opcode : Nat)
    (seq : List llir_node) :
    runtime_nodes (disable_emitter reg opcode) seq =
      (runtime_nodes reg seq).filter
        (fun n => !(n.runtime_opcode == opcode)) := by
  unfold runtime_nodes disable_emitter
  rw [List.filter_filter]
  apply List.filter_congr
  intro n _
  simp [Bool.not_or]

/-- Emitting a node list that avoids a disabled opcode is unaffected by
disabling it. -/
theorem emit_bodies_disable_other (reg : emitter_registry) (opcode : Nat)
    (nodes : List llir_node) (pos : Nat)
    (hne : ∀ n ∈ nodes, n.runtime_opcode ≠ opcode) :
    emit_bodies (disable_emitter reg opcode) nodes pos =
      emit_bodies reg nodes pos := by
  induction nodes generalizing pos with
  | nil => rfl
  | cons n rest ih =>
    have hn : n.runtime_opcode ≠ opcode := hne n (List.mem_cons_self n rest)
    have hrest : ∀ m ∈ rest, m.runtime_opcode ≠ opcode :=
      fun m hm => hne m (List.mem_cons_of_mem n hm)
    simp only [emit_bodies, call_emitter_disable_other reg opcode n hn]
    cases call_emitter reg n with
    | error e => rfl
    | ok ob =>
      cases ob with
      | none => exact ih pos hrest
      | some body =>
        simp only []
        rw [ih _ hrest]

/-- When every node's opcode is registered, the body loop emits exactly
one header per node. -/
theorem emit_bodies_length (reg : emitter_registry) (nodes : List llir_node)
    (pos end_pos : Nat) (entries : List emitted_node)
    (hreg : ∀ n ∈ nodes, (reg.g_emitters n.runtime_opcode).isSome = true)
    (h : emit_bodies reg nodes pos = Except.ok (end_pos, entries)) :
    entries.length = nodes.length := by
  induction nodes generalizing pos entries with
  | nil =>
    simp only [emit_bodies, Except.ok.injEq, Prod.mk.injEq] at h
    rw [← h.2]
    rfl
  | cons n rest ih =>
    have hn := hreg n (List.mem_cons_self n rest)
    have hrest : ∀ m ∈ rest, (reg.g_emitters m.runtime_opcode).isSome = true :=
      fun m hm => hreg m (List.mem_cons_of_mem n hm)
    cases hget : reg.g_emitters n.runtime_opcode with
    | none => rw [hget] at hn; exact Bool.noConfusion hn
    | some f =>
      simp only [emit_bodies, call_emitter, hget] at h
      cases hrec : emit_bodies reg rest
          (align_position (pos + (f n).len) 8) with
      | error e => rw [hrec] at h; exact Except.noConfusion h
      | ok out =>
        obtain ⟨ep2, ents2⟩ := out
        rw [hrec] at h
        simp only [Except.ok.injEq, Prod.mk.injEq] at h
        obtain ⟨hep, hent⟩ := h
        subst hep
        rw [← hent]
        simp only [List.length_cons]
        rw [ih _ ents2 hrest hrec]

/-- Splitting a list by a Boolean predicate preserves total length. -/
theorem length_filter_split {α : Type} (p : α → Bool) (l : List α) :
    (l.filter (fun a => !(p a))).length + (l.filter p).length = l.length := by
  induction l with
  | nil => rfl
  | cons a l ih =>
    by_cases h : p a = true
    · simp [List.filter_cons, h]
      omega
    · have h' : p a = false := by
        revert h
        cases p a <;> simp
      simp [List.filter_cons, h']
      omega

/-- The writer position never moves backwards under alignment. -/
theorem align_position_ge (pos : Nat) : pos ≤ align_position pos 8 := by
  unfold align_position
  omega

/-- Aligned positions are multiples of 8. -/
theorem align_position_mod (pos : Nat) : align_position pos 8 % 8 = 0 := by
  unfold align_position
  omega

/-- Bodies are laid out back to back: each entry starts at the given
position and the next entry starts at its post-alignment end. -/
def bodies_contiguous : Nat → List emitted_node → Prop
  | _, [] => True
  | pos, e :: rest =>
    e.body_start = pos ∧
      bodies_contiguous (e.body_start + e.header.body_size) rest

/-- Every successful body-loop run records post-alignment spans as header
sizes, ends each body at an 8-byte boundary, and lays bodies out back to
back from the start position. -/
theorem emit_bodies_spec (reg : emitter_registry) (nodes : List llir_node)
    (pos end_pos : Nat) (entries : List emitted_node)
    (h : emit_bodies reg nodes pos = Except.ok (end_pos, entries)) :
    (∀ e ∈ entries,
       e.header.body_size =
           align_position (e.body_start + e.body.len) 8 - e.body_start ∧
         (e.body_start + e.header.body_size) % 8 = 0) ∧
    bodies_contiguous pos entries := by
  induction nodes generalizing pos entries with
  | nil =>
    simp only [emit_bodies, Except.ok.injEq, Prod.mk.injEq] at h
    rw [← h.2]
    exact ⟨by intro e he; exact absurd he (List.not_mem_nil e), trivial⟩
  | cons n rest ih =>
    cases hcall : call_emitter reg n with
    | error e =>
      simp only [emit_bodies, hcall] at h
      exact Except.noConfusion h
    | ok ob =>
      cases ob with
      | none =>
        simp only [emit_bodies, hcall] at h
        exact ih pos entries h
      | some body =>
        simp only [emit_bodies, hcall] at h
        cases hrec : emit_bodies reg rest
            (align_position (pos + body.len) 8) with
        | error e => rw [hrec] at h; exact Except.noConfusion h
        | ok out =>
          obtain ⟨ep2, ents2⟩ := out
          rw [hrec] at h
          simp only [Except.ok.injEq, Prod.mk.injEq] at h
          obtain ⟨hep, hent⟩ := h
          subst hep
          obtain ⟨ih1, ih2⟩ :=
            ih (align_position (pos + body.len) 8) ents2 hrec
          have hle : pos ≤ align_position (pos + body.len) 8 :=
            le_trans (Nat.le_add_right pos body.len)
              (align_position_ge (pos + body.len))
          have hspan : pos + (align_position (pos + body.len) 8 - pos) =
              align_position (pos + body.len) 8 := by omega
          rw [← hent]
          constructor
          · intro e hme
            rcases List.mem_cons.mp hme with rfl | hme
            · refine ⟨rfl, ?_⟩
              show (pos + (align_position (pos + body.len) 8 - pos)) % 8 = 0
              rw [hspan]
              exact align_position_mod (pos + body.len)
            · exact ih1 e hme
          · refine ⟨rfl, ?_⟩
            show bodies_contiguous
              (pos + (align_position (pos + body.len) 8 - pos)) ents2
            rw [hspan]
            exact ih2

/-- Under back-to-back layout from an aligned start, with every body
ending on an 8-byte boundary, every body start is 8-byte aligned. -/
theorem contiguous_all_aligned (entries : List emitted_node) :
    ∀ pos, bodies_contiguous pos entries →
      (∀ e ∈ entries, (e.body_start + e.header.body_size) % 8 = 0) →
      pos % 8 = 0 →
      ∀ e ∈ entries, e.body_start % 8 = 0 := by
  induction entries with
  | nil => intro pos _ _ _ e he; exact absurd he (List.not_mem_nil e)
  | cons a rest ih =>
    intro pos hcont hmod hpos e he
    rcases List.mem_cons.mp he with rfl | he
    · rw [hcont.1]; exact hpos
    · exact ih (a.body_start + a.header.body_size) hcont.2
        (fun x hx => hmod x (List.mem_cons_of_mem a hx))
        (hmod a (List.mem_cons_self a rest)) e he

/-- Every body after the first starts at an absolute multiple of 8. -/
theorem contiguous_tail_aligned (entries : List emitted_node) (pos : Nat)
    (hcont : bodies_contiguous pos entries)
    (hmod : ∀ e ∈ entries, (e.body_start + e.header.body_size) % 8 = 0) :
    ∀ j e, entries.get? j = some e → 0 < j → e.body_start % 8 = 0 := by
  cases entries with
  | nil =>
    intro j e hget _
    rw [List.get?_nil] at hget
    exact Option.noConfusion hget
  | cons a rest =>
    intro j e hget hpos
    cases j with
    | zero => omega
    | succ k =>
      simp only [List.get?_cons_succ] at hget
      exact contiguous_all_aligned rest (a.body_start + a.header.body_size)
        hcont.2 (fun x hx => hmod x (List.mem_cons_of_mem a hx))
        (hmod a (List.mem_cons_self a rest)) e (List.get?_mem hget)

/-- A registry with a single emitter for opcode 0 producing a 16-byte
body. -/
def example_registry : emitter_registry :=
  { g_emitters := fun o =>
      if o = 0 then some (fun _ => { opcode := 0, len := 16 }) else none
    g_disabled_emitters := fun _ => false }

/-- A registry with nothing registered and nothing disabled. -/
def example_empty_registry : emitter_registry :=
  { g_emitters := fun _ => none
    g_disabled_emitters := fun _ => false }

/-- A registry with nothing registered and every opcode disabled. -/
def example_disabled_registry : emitter_registry :=
  { g_emitters := fun _ => none
    g_disabled_emitters := fun _ => true }

/-- A one-node compute sequence with opcode 0. -/
def example_sequence : List llir_node := [{ runtime_opcode := 0, node_id := 0 }]

/-- What `gencode example_registry example_sequence 0` evaluates to. -/
def example_gencode_output : gencode_output :=
  { flags := 2
    page_bytes := 0
    node_headers := [{ opcode := 0, body_size := 16 }]
    emitted := [{ body_start := 8
                  body := { opcode := 0, len := 16 }
                  header := { opcode := 0, body_size := 16 } }]
    page_table := some ({ num_pages := 1
                          max_pages := 8
                          body_buffer_size := 16 },
                        [⟨0, memory_page_type.persistent, 0, 0, 0, 16⟩])
    end_pos := 24 }

/-- C1 (defect): `gencode` guards the page-table space reservation with
`flags & KM_MAX_PAGES` instead of the paging flag; since the produced
flags value is `KM_NODE_PAGING` = 0x02 and `KM_MAX_PAGES` = 8 have no
common bit, the reservation skips zero bytes even though the paging flag
is set — yet the page table itself occupies a positive number of
bytes.  So the space skipped is NOT nonzero when the paging flag is set,
contradicting the claimed reservation. -/
theorem c1_page_reservation_guard_bug :
    gencode example_registry example_sequence 0 =
        Except.ok example_gencode_output ∧
      example_gencode_output.flags &&& KM_NODE_PAGING ≠ 0 ∧
      example_gencode_output.page_bytes = 0 ∧
      0 < sizeof_memory_page * KM_MAX_PAGES :=
  ⟨rfl, by decide, rfl, by decide⟩

/-- C7: dispatch invokes a registered emitter; an unregistered,
non-disabled opcode is a fatal error; an unregistered disabled opcode
yields no body; disabling an opcode drops exactly its nodes from the
runtime sequence without changing how the remaining nodes are emitted,
so the header count decreases by exactly the number of dropped nodes. -/
theorem c7_emitter_dispatch :
    (∀ (reg : emitter_registry) (node : llir_node)
       (emitter : llir_node → node_body),
       reg.g_emitters node.runtime_opcode = some emitter →
       call_emitter reg node = Except.ok (some (emitter node))) ∧
    (∀ (reg : emitter_registry) (node : llir_node),
       reg.g_emitters node.runtime_opcode = none →
       reg.g_disabled_emitters node.runtime_opcode = false →
       call_emitter reg node =
         Except.error
           (codegen_error.unregistered_emitter node.runtime_opcode)) ∧
    (∀ (reg : emitter_registry) (node : llir_node),
       reg.g_emitters node.runtime_opcode = none →
       reg.g_disabled_emitters node.runtime_opcode = true →
       call_emitter reg node = Except.ok none) ∧
    (∀ (reg : emitter_registry) (opcode : Nat) (seq : List llir_node),
       runtime_nodes (disable_emitter reg opcode) seq =
         (runtime_nodes reg seq).filter
           (fun n => !(n.runtime_opcode == opcode))) ∧
    (∀ (reg : emitter_registry) (opcode : Nat) (nodes : List llir_node)
       (pos : Nat),
       (∀ n ∈ nodes, n.runtime_opcode ≠ opcode) →
       emit_bodies (disable_emitter reg opcode) nodes pos =
         emit_bodies reg nodes pos) ∧
    (∀ (reg : emitter_registry) (nodes : List llir_node)
       (pos end_pos : Nat) (entries : List emitted_node),
       (∀ n ∈ nodes, (reg.g_emitters n.runtime_opcode).isSome = true) →
       emit_bodies reg nodes pos = Except.ok (end_pos, entries) →
       entries.length = nodes.length) ∧
    (∀ (reg : emitter_registry) (opcode : Nat) (seq : List llir_node),
       (runtime_nodes reg seq).length =
         (runtime_nodes (disable_emitter reg opcode) seq).length +
           ((runtime_nodes reg seq).filter
             (fun n => n.runtime_opcode == opcode)).length) := by
  refine ⟨?_, ?_, ?_, ?_, ?_, ?_, ?_⟩
  · intro reg node emitter h
    unfold call_emitter
    rw [h]
  · intro reg node h1 h2
    unfold call_emitter
    rw [h1, h2]
    rfl
  · intro reg node h1 h2
    unfold call_emitter
    rw [h1, h2]
    rfl
  · intro reg opcode seq
    exact runtime_nodes_disable reg opcode seq
  · intro reg opcode nodes pos h
    exact emit_bodies_disable_other reg opcode nodes pos h
  · intro reg nodes pos end_pos entries h1 h2
    exact emit_bodies_length reg nodes pos end_pos entries h1 h2
  · intro reg opcode seq
    rw [runtime_nodes_disable reg opcode seq]
    exact (length_filter_split
      (fun n => n.runtime_opcode == opcode) (runtime_nodes reg seq)).symm

/-- Witness for C7 at concrete registries, nodes and sequences. -/
theorem c7_emitter_dispatch_witness :
    call_emitter example_registry { runtime_opcode := 0, node_id := 0 } =
        Except.ok (some { opcode := 0, len := 16 }) ∧
      call_emitter example_empty_registry
          { runtime_opcode := 7, node_id := 0 } =
        Except.error (codegen_error.unregistered_emitter 7) ∧
      call_emitter example_disabled_registry
          { runtime_opcode := 5, node_id := 0 } =
        Except.ok none ∧
      runtime_nodes (disable_emitter example_registry 0) example_sequence =
        (runtime_nodes example_registry example_sequence).filter
          (fun n => !(n.runtime_opcode == 0)) ∧
      emit_bodies (disable_emitter example_registry 1) example_sequence 8 =
        emit_bodies example_registry example_sequence 8 ∧
      ([{ body_start := 8
          body := { opcode := 0, len := 16 }
          header := { opcode := 0, body_size := 16 } }] :
        List emitted_node).length = example_sequence.length ∧
      (runtime_nodes example_registry example_sequence).length =
        (runtime_nodes (disable_emitter example_registry 0)
            example_sequence).length +
          ((runtime_nodes example_registry example_sequence).filter
            (fun n => n.runtime_opcode == 0)).length :=
  ⟨c7_emitter_dispatch.1 example_registry
      { runtime_opcode := 0, node_id := 0 } (fun _ => { opcode := 0, len := 16 })
      rfl,
    c7_emitter_dispatch.2.1 example_empty_registry
      { runtime_opcode := 7, node_id := 0 } rfl rfl,
    c7_emitter_dispatch.2.2.1 example_disabled_registry
      { runtime_opcode := 5, node_id := 0 } rfl rfl,
    c7_emitter_dispatch.2.2.2.1 example_registry 0 example_sequence,
    c7_emitter_dispatch.2.2.2.2.1 example_registry 1 example_sequence 8
      (by decide),
    c7_emitter_dispatch.2.2.2.2.2.1 example_registry example_sequence 8 24
      [{ body_start := 8
         body := { opcode := 0, len := 16 }
         header := { opcode := 0, body_size := 16 } }]
      (by decide) rfl,
    c7_emitter_dispatch.2.2.2.2.2.2 example_registry 0 example_sequence⟩

/-- C8: every emitted node header records the span from the body's start
to the post-alignment position as its `body_size`; that end position is an
8-byte boundary; bodies are laid out back to back; hence every body after
the first begins at a multiple of 8, and if the body region itself starts
8-byte aligned then every body start (relative or absolute) is a multiple
of 8. -/
theorem c8_body_alignment (reg : emitter_registry) (nodes : List llir_node)
    (pos end_pos : Nat) (entries : List emitted_node)
    (h : emit_bodies reg nodes pos = Except.ok (end_pos, entries)) :
    (∀ e ∈ entries,
       e.header.body_size =
           align_position (e.body_start + e.body.len) 8 - e.body_start ∧
         (e.body_start + e.header.body_size) % 8 = 0) ∧
    bodies_contiguous pos entries ∧
    (∀ j e, entries.get? j = some e → 0 < j → e.body_start % 8 = 0) ∧
    (pos % 8 = 0 → ∀ e ∈ entries, e.body_start % 8 = 0) := by
  obtain ⟨h1, h2⟩ := emit_bodies_spec reg nodes pos end_pos entries h
  exact ⟨h1, h2,
    contiguous_tail_aligned entries pos h2 (fun e he => (h1 e he).2),
    fun hp =>
      contiguous_all_aligned entries pos h2 (fun e he => (h1 e he).2) hp⟩

/-- Witness for C8 at a concrete two-node run. -/
theorem c8_body_alignment_witness :
    (∀ e ∈ ([{ body_start := 8
               body := { opcode := 0, len := 16 }
               header := { opcode := 0, body_size := 16 } }] :
             List emitted_node),
       e.header.body_size =
           align_position (e.body_start + e.body.len) 8 - e.body_start ∧
         (e.body_start + e.header.body_size) % 8 = 0) ∧
    bodies_contiguous 8
      [{ body_start := 8
         body := { opcode := 0, len := 16 }
         header := { opcode := 0, body_size := 16 } }] ∧
    (∀ j e, ([{ body_start := 8
                body := { opcode := 0, len := 16 }
                header := { opcode := 0, body_size := 16 } }] :
              List emitted_node).get? j = some e → 0 < j →
       e.body_start % 8 = 0) ∧
    (8 % 8 = 0 →
      ∀ e ∈ ([{ body_start := 8
                body := { opcode := 0, len := 16 }
                header := { opcode := 0, body_size := 16 } }] :
              List emitted_node),
        e.body_start % 8 = 0) :=
  c8_body_alignment example_registry example_sequence 8 24
    [{ body_start := 8
       body := { opcode := 0, len := 16 }
       header := { opcode := 0, body_size := 16 } }] rfl

/-- C9: the planner's out-of-bounds branch is reachable exactly on the
empty header list, and `gencode` reaches it whenever no runtime node
remains, because paging is always on. -/
theorem c9_empty_headers_reachable :
    (∀ headers : List node_header,
       write_pages headers = Except.error pages_error.empty_headers ↔
         headers = []) ∧
    (∀ (reg : emitter_registry) (seq : List llir_node) (pos : Nat),
       runtime_nodes reg seq = [] →
       gencode reg seq pos =
         Except.error (codegen_error.pages pages_error.empty_headers)) := by
  constructor
  · intro headers
    constructor
    · intro h
      cases headers with
      | nil => rfl
      | cons h0 rest =>
        simp only [write_pages] at h
        split at h
        · exact Except.noConfusion h
        · simp at h
    · intro h
      subst h
      rfl
  · intro reg seq pos hempty
    simp only [gencode, hempty]
    rfl

/-- Witness for C9: the empty list hits the error; a sequence whose only
node is disabled leaves no runtime nodes and `gencode` fails the same
way. -/
theorem c9_empty_headers_reachable_witness :
    (write_pages ([] : List node_header) =
        Except.error pages_error.empty_headers ↔
      ([] : List node_header) = []) ∧
    gencode example_disabled_registry
        [{ runtime_opcode := 5, node_id := 0 }] 0 =
      Except.error (codegen_error.pages pages_error.empty_headers) :=
  ⟨c9_empty_headers_reachable.1 [],
    c9_empty_headers_reachable.2 example_disabled_registry
      [{ runtime_opcode := 5, node_id := 0 }] 0 rfl⟩

/-- C10: `enable_paging` is a hard-coded `true`, so every successful
`gencode` run sets exactly the paging bit in the flags and carries a page
table; no caller input can produce an unpaged model. -/
theorem c10_paging_unconditional :
    enable_paging = true ∧
    (∀ (reg : emitter_registry) (seq : List llir_node) (pos : Nat)
       (out : gencode_output),
       gencode reg seq pos = Except.ok out →
       out.flags = KM_NODE_PAGING ∧ out.flags &&& KM_NODE_PAGING ≠ 0 ∧
         out.page_table.isSome = true) := by
  refine ⟨rfl, ?_⟩
  intro reg seq pos out h
  have hcond : ((0 : Nat) ||| KM_NODE_PAGING) &&& KM_NODE_PAGING ≠ 0 := by
    decide
  simp only [gencode, enable_paging, if_true, if_pos hcond] at h
  split at h
  · exact Except.noConfusion h
  · split at h
    · exact Except.noConfusion h
    · simp only [Except.ok.injEq] at h
      subst h
      refine ⟨?_, ?_, rfl⟩
      · show (0 : Nat) ||| KM_NODE_PAGING = KM_NODE_PAGING
        decide
      · show ((0 : Nat) ||| KM_NODE_PAGING) &&& KM_NODE_PAGING ≠ 0
        decide

/-- Witness for C10 at a concrete successful run. -/
theorem c10_paging_unconditional_witness :
    enable_paging = true ∧
      (example_gencode_output.flags = KM_NODE_PAGING ∧
        example_gencode_output.flags &&& KM_NODE_PAGING ≠ 0 ∧
        example_gencode_output.page_table.isSome = true) :=
  ⟨c10_paging_unconditional.1,
    c10_paging_unconditional.2 example_registry example_sequence 0
      example_gencode_output rfl⟩

end NncaseCodegen
